import Mathlib

/-!
Verification of the rule-based file classifier/mover in
`hazel_replacement/hazel_service.py` (the "Hazel replacement" service).

The Python service is embedded shallowly:

* the filesystem is a finite list of existing file paths (`FsPath`);
* `time.sleep`-separated size samples of `is_file_ready` become two
  explicit `Option Nat` snapshots (`none` = the path does not exist at
  the sample, `some n` = it exists with size `n`);
* the macOS extended-attribute read performed by `get_download_source`
  becomes an explicit `XattrResult` input (attribute absent, attribute
  present with a URL list, or the read raised);
* Python's unbounded `while True` loop in `generate_unique_filename`
  becomes a fuel-indexed loop with fuel `|fs| + 1`, which is proved
  sufficient below (pigeonhole over the distinct candidate names);
* `str.lower()` is modeled by `str_lower` (ASCII lowering, applied to
  the character data), f-string interpolation of
  the counter by `Nat.repr`, Python's substring operator by
  `str_contains`, and `urllib.parse.urlparse(url).netloc` by
  `url_netloc` (scheme prefix stripped when well formed, then the
  authority component read between `//` and the next `/`, `?` or `#`).
-/

/-- A file path, split as the containing directory and the final name
component (`Path.name` in Python). -/
structure FsPath where
  dir : String
  name : String
deriving DecidableEq, Repr

/-- Mirrors the Python dataclass `TypeRule`: a named extension list with a
destination subdirectory. -/
structure TypeRule where
  name : String
  extensions : List String
  destination : String
deriving DecidableEq, Repr

/-- Mirrors the Python dataclass `WatchRule`. -/
structure WatchRule where
  name : String
  watch_directory : String
  enabled : Bool
  redirect_domains : List String
  type_rules : List TypeRule
  redirect_destination : String
  source_directories : List String
deriving DecidableEq, Repr

/-- Outcome of reading the `com.apple.metadata:kMDItemWhereFroms`
extended attribute in `get_download_source`: the key is absent, the key is
present and the plist decodes to a URL list, or some exception was raised
(the Python code catches every exception). -/
inductive XattrResult where
  | absent : XattrResult
  | present : List String → XattrResult
  | error : XattrResult
deriving DecidableEq, Repr

/-- Embeds `get_download_source`: on a successful read of a non-empty URL
list it returns the first URL (`urls[0]`); an absent attribute, an empty
list, or a raised exception yields `None`. -/
def get_download_source (xres : XattrResult) : Option String :=
  match xres with
  | XattrResult.present urls => urls.head?
  | XattrResult.absent => none
  | XattrResult.error => none

/-- Python's `str.lower()` on the basic latin range (the inputs the
service handles), written directly on the character data. -/
def str_lower (s : String) : String :=
  String.mk (s.data.map Char.toLower)

/-- Python's `str.startswith`, written on the character data. -/
def str_startswith (s p : String) : Bool :=
  List.isPrefixOf p.data s.data

/-- Python's `str.endswith`, written on the character data. -/
def str_endswith (s p : String) : Bool :=
  List.isPrefixOf p.data.reverse s.data.reverse

/-- Characters allowed in a URL scheme (letters, digits, `+`, `-`, `.`),
as in the standard library's URL splitting that `urlparse` performs. -/
def is_scheme_char (c : Char) : Bool :=
  c.isAlpha || c.isDigit || c == '+' || c == '-' || c == '.'

/-- The `netloc` component of standard URL parsing, on character lists: a
well-formed scheme (`alpha (alnum|+|-|.)* :`) is stripped, and the
authority is the run after a leading `//` up to the next `/`, `?` or `#`;
a URL with no `//` part has an empty netloc. -/
def url_netloc (cs : List Char) : List Char :=
  let rest :=
    match cs.findIdx? (fun c => c == ':') with
    | some i =>
      if 0 < i ∧ (cs.take i).all is_scheme_char ∧
          (match cs.head? with
           | some c => c.isAlpha
           | none => false) = true then
        cs.drop (i + 1)
      else cs
    | none => cs
  match rest with
  | '/' :: '/' :: r => r.takeWhile (fun c => !(c == '/' || c == '?' || c == '#'))
  | _ => []

/-- Embeds `extract_domain`: `urlparse(url).netloc.lower()` (the `try`
block cannot raise on the modeled parse, so the result is total). -/
def extract_domain (url : String) : String :=
  str_lower (String.mk (url_netloc url.data))

/-- Python's substring operator `needle in haystack` on character lists. -/
def list_contains_sub (needle : List Char) : List Char → Bool
  | [] => needle.isEmpty
  | c :: rest => List.isPrefixOf needle (c :: rest) || list_contains_sub needle rest

/-- Python's substring operator on strings: `needle in haystack`. -/
def str_contains (haystack needle : String) : Bool :=
  list_contains_sub needle.data haystack.data

/-- Embeds `matches_redirect_domain`: an empty URL or an empty parsed
domain never matches; otherwise any configured pattern that is a
substring of the lower-cased domain (both sides lower-cased) matches. -/
def matches_redirect_domain (url : String) (redirect_domains : List String) : Bool :=
  if url = "" then false
  else
    let domain := extract_domain url
    if domain = "" then false
    else
      let domain_lower := str_lower domain
      redirect_domains.any (fun pattern => str_contains domain_lower (str_lower pattern))

/-- Index of the last `.` in a name, mirroring the lookup `pathlib` uses
for `PurePath.suffix` and `PurePath.stem` (`name.rfind(".")`). -/
def last_dot_index (cs : List Char) : Option Nat :=
  match (cs.reverse.findIdx? (fun c => c == '.')) with
  | some j => some (cs.length - 1 - j)
  | none => none

/-- Embeds `PurePath.suffix` on the final name component: the substring
from the last dot, provided that dot is neither the first nor the last
character; otherwise the empty string. -/
def path_suffix (name : String) : String :=
  match last_dot_index name.data with
  | some i =>
    if 0 < i ∧ i < name.data.length - 1 then String.mk (name.data.drop i) else ""
  | none => ""

/-- Embeds `PurePath.stem`: the name with `path_suffix` removed. -/
def path_stem (name : String) : String :=
  match last_dot_index name.data with
  | some i =>
    if 0 < i ∧ i < name.data.length - 1 then String.mk (name.data.take i) else name
  | none => name

/-- Embeds `get_file_extension`: `file_path.suffix.lower()`. -/
def get_file_extension (file_path : FsPath) : String :=
  str_lower (path_suffix file_path.name)

/-- Embeds `find_matching_type_rule`: the first rule in declaration order
whose extension list contains the file's lower-cased extension. -/
def find_matching_type_rule (file_path : FsPath) (type_rules : List TypeRule) :
    Option TypeRule :=
  let ext := get_file_extension file_path
  type_rules.find? (fun rule => rule.extensions.contains ext)

/-- The candidate name `f"{stem}_{counter}{suffix}"` tried by the
collision loop of `generate_unique_filename`. -/
def numbered_candidate (destination original_name : String) (counter : Nat) : FsPath :=
  FsPath.mk destination
    (path_stem original_name ++ "_" ++ Nat.repr counter ++ path_suffix original_name)

/-- The `while True` collision loop of `generate_unique_filename`, with
explicit fuel (the loop in the source is unbounded; fuel `|fs| + 1` is
proved sufficient below). -/
def gen_unique_loop (fs : List FsPath) (destination original_name : String) :
    Nat → Nat → Option FsPath
  | 0, _ => none
  | fuel + 1, counter =>
    let dest_file := numbered_candidate destination original_name counter
    if dest_file ∈ fs then gen_unique_loop fs destination original_name fuel (counter + 1)
    else some dest_file

/-- Embeds `generate_unique_filename`: the original name if it is free in
the destination, otherwise `stem_1{suffix}`, `stem_2{suffix}`, … until a
free name is found.  `fs` is the list of files that exist. -/
def generate_unique_filename (fs : List FsPath) (destination original_name : String) :
    Option FsPath :=
  let dest_file := FsPath.mk destination original_name
  if dest_file ∈ fs then
    gen_unique_loop fs destination original_name (fs.length + 1) 1
  else some dest_file

/-- Embeds the successful path of `move_file`: `shutil.move` of the
source to the unique destination name (`ensure_directory` has no content
in the model, directories being implicit). -/
def move_file (fs : List FsPath) (source : FsPath) (destination_dir : String) :
    List FsPath :=
  match generate_unique_filename fs destination_dir source.name with
  | some dest_file => dest_file :: fs.erase source
  | none => fs

/-- Embeds `is_file_ready`: the two size samples taken around the
`time.sleep` are explicit snapshots (`none` = the path does not exist at
that sample).  Ready exactly when both samples exist and agree. -/
def is_file_ready (snap1 snap2 : Option Nat) : Bool :=
  match snap1 with
  | none => false
  | some size1 =>
    match snap2 with
    | none => false
    | some size2 => size1 == size2

/-- Embeds `process_file`: skip directories, hidden/temp files and OS
litter; require readiness; then redirect on a provenance-domain match,
otherwise move by the first matching type rule, otherwise leave the
filesystem unchanged. -/
def process_file (fs : List FsPath) (file_path : FsPath) (is_dir : Bool)
    (snap1 snap2 : Option Nat) (xres : XattrResult) (rule : WatchRule) :
    List FsPath :=
  if is_dir then fs
  else if str_startswith file_path.name "." || str_endswith file_path.name ".tmp" then fs
  else if file_path.name = ".DS_Store" ∨ file_path.name = "Thumbs.db" ∨
      file_path.name = ".localized" then fs
  else if !is_file_ready snap1 snap2 then fs
  else
    let download_url := get_download_source xres
    let redirect : Bool :=
      match download_url with
      | some url => url != "" && matches_redirect_domain url rule.redirect_domains
      | none => false
    if redirect then
      move_file fs file_path (rule.watch_directory ++ "/" ++ rule.redirect_destination)
    else
      match find_matching_type_rule file_path rule.type_rules with
      | some type_rule =>
        move_file fs file_path (rule.watch_directory ++ "/" ++ type_rule.destination)
      | none => fs

/-- One entry of the `type_rules` mapping in a rule's configuration;
`extensions` and `destination` are `none` when the key is missing
(`dict.get` defaults). -/
structure TypeRuleConfig where
  name : String
  extensions : Option (List String)
  destination : Option String
deriving DecidableEq, Repr

/-- One entry of the `watch_rules` configuration list; optional fields
are `none` when the key is missing (`dict.get` defaults). -/
structure WatchRuleConfig where
  name : String
  watch_directory : String
  enabled : Option Bool
  redirect_domains : Option (List String)
  type_rules : List TypeRuleConfig
  redirect_destination : Option String
  source_directories : Option (List String)
deriving DecidableEq, Repr

/-- Embeds the `TypeRule` construction inside `parse_watch_rules`:
extensions are lower-cased, the destination defaults to the rule name. -/
def parse_type_rule (cfg : TypeRuleConfig) : TypeRule :=
  TypeRule.mk cfg.name ((cfg.extensions.getD []).map str_lower)
    (cfg.destination.getD cfg.name)

/-- Embeds `parse_watch_rules`: configurations whose `enabled` value is
`false` are skipped; the remaining ones are built with their defaults
applied (`os.path.expanduser` is modeled as the identity, the expansion
being environment state outside the rule engine). -/
def parse_watch_rules (configs : List WatchRuleConfig) : List WatchRule :=
  (configs.filter (fun c => c.enabled.getD true)).map (fun c =>
    WatchRule.mk c.name c.watch_directory (c.enabled.getD true)
      (c.redirect_domains.getD []) (c.type_rules.map parse_type_rule)
      (c.redirect_destination.getD "tmp") (c.source_directories.getD ["."]))

/-!
Helper lemmas: decimal rendering (`Nat.repr`) is injective, the
collision loop terminates within `|fs| + 1` steps and returns the first
free numbered name, and Python's substring operator is decomposition.
-/

/-- Decimal rendering of a natural number by well-founded recursion;
`Nat.repr` is proved below to agree with it. -/
def dec_rep (n : Nat) : List Char :=
  if n < 10 then [Nat.digitChar n]
  else dec_rep (n / 10) ++ [Nat.digitChar (n % 10)]
decreasing_by exact Nat.div_lt_self (by omega) (by omega)

theorem dec_rep_of_lt (n : Nat) (h : n < 10) : dec_rep n = [Nat.digitChar n] := by
  rw [dec_rep, if_pos h]

theorem dec_rep_of_ge (n : Nat) (h : ¬ n < 10) :
    dec_rep n = dec_rep (n / 10) ++ [Nat.digitChar (n % 10)] := by
  rw [dec_rep]; rw [if_neg h]

theorem toDigitsCore_eq_dec_rep (f : Nat) :
    ∀ (n : Nat) (l : List Char), n < f →
      Nat.toDigitsCore 10 f n l = dec_rep n ++ l := by
  induction f with
  | zero => intro n l h; omega
  | succ f ih =>
    intro n l h
    simp only [Nat.toDigitsCore]
    by_cases h10 : n / 10 = 0
    · have hn : n < 10 := by omega
      rw [if_pos h10, dec_rep_of_lt n hn]
      have : n % 10 = n := by omega
      rw [this]
      rfl
    · have hn : ¬ n < 10 := by omega
      rw [if_neg h10, ih (n / 10) _ (by omega), dec_rep_of_ge n hn]
      simp

theorem repr_eq_dec_rep (n : Nat) : Nat.repr n = String.mk (dec_rep n) := by
  show (Nat.toDigits 10 n).asString = String.mk (dec_rep n)
  rw [Nat.toDigits, toDigitsCore_eq_dec_rep (n + 1) n [] (by omega)]
  simp [List.asString]

/-- Value of a list of decimal digit characters, used only to invert
`dec_rep`. -/
def dec_val (l : List Char) : Nat :=
  l.foldl (fun a c => a * 10 + (c.toNat - 48)) 0

theorem digitChar_toNat_sub (d : Nat) (h : d < 10) :
    (Nat.digitChar d).toNat - 48 = d := by
  interval_cases d <;> decide

theorem dec_val_append_singleton (l : List Char) (c : Char) :
    dec_val (l ++ [c]) = dec_val l * 10 + (c.toNat - 48) := by
  simp [dec_val, List.foldl_append]

theorem dec_val_dec_rep (n : Nat) : dec_val (dec_rep n) = n := by
  induction n using Nat.strong_induction_on with
  | _ n ih =>
    by_cases h : n < 10
    · rw [dec_rep_of_lt n h]
      have := digitChar_toNat_sub n h
      simp [dec_val, this]
    · rw [dec_rep_of_ge n h, dec_val_append_singleton,
        ih (n / 10) (Nat.div_lt_self (by omega) (by omega)),
        digitChar_toNat_sub (n % 10) (by omega)]
      omega

theorem nat_repr_injective : Function.Injective Nat.repr := by
  intro m n h
  rw [repr_eq_dec_rep, repr_eq_dec_rep] at h
  have hl : dec_rep m = dec_rep n := by
    injection h
  have := congrArg dec_val hl
  rwa [dec_val_dec_rep, dec_val_dec_rep] at this

theorem numbered_candidate_injective (destination original_name : String) :
    Function.Injective (numbered_candidate destination original_name) := by
  intro a b h
  unfold numbered_candidate at h
  have hname := congrArg FsPath.name h
  simp only at hname
  have hdata := congrArg String.data hname
  simp only [String.data_append] at hdata
  have h3 := List.append_cancel_right hdata
  have h4 := List.append_cancel_left h3
  have h5 : Nat.repr a = Nat.repr b := by
    cases ha : Nat.repr a with
    | mk l => cases hb : Nat.repr b with
      | mk l2 => rw [ha, hb] at h4; simp only at h4; rw [h4]
  exact nat_repr_injective h5

theorem exists_free_candidate (fs : List FsPath) (destination original_name : String) :
    ∃ c, 1 ≤ c ∧ c ≤ fs.length + 1 ∧
      numbered_candidate destination original_name c ∉ fs := by
  by_contra hc
  push_neg at hc
  have hsub : (Finset.Icc 1 (fs.length + 1)).image
      (numbered_candidate destination original_name) ⊆ fs.toFinset := by
    intro p hp
    simp only [Finset.mem_image, Finset.mem_Icc] at hp
    obtain ⟨c, ⟨h1, h2⟩, rfl⟩ := hp
    exact List.mem_toFinset.mpr (hc c h1 h2)
  have hcard := Finset.card_le_card hsub
  rw [Finset.card_image_of_injective _ (numbered_candidate_injective _ _),
    Nat.card_Icc] at hcard
  have := fs.toFinset_card_le
  omega

theorem gen_unique_loop_spec (fs : List FsPath) (destination original_name : String) :
    ∀ (fuel counter : Nat),
      (∃ c, counter ≤ c ∧ c < counter + fuel ∧
          numbered_candidate destination original_name c ∉ fs) →
      ∃ N, counter ≤ N ∧
        gen_unique_loop fs destination original_name fuel counter =
          some (numbered_candidate destination original_name N) ∧
        numbered_candidate destination original_name N ∉ fs ∧
        ∀ M, counter ≤ M → M < N →
          numbered_candidate destination original_name M ∈ fs := by
  intro fuel
  induction fuel with
  | zero =>
    intro counter h
    obtain ⟨c, h1, h2, _⟩ := h
    omega
  | succ fuel ih =>
    intro counter h
    obtain ⟨c, h1, h2, h3⟩ := h
    simp only [gen_unique_loop]
    by_cases hmem : numbered_candidate destination original_name counter ∈ fs
    · rw [if_pos hmem]
      have hcc : counter ≠ c := fun he => h3 (he ▸ hmem)
      obtain ⟨N, hN1, hN2, hN3, hN4⟩ := ih (counter + 1) ⟨c, by omega, by omega, h3⟩
      refine ⟨N, by omega, hN2, hN3, fun M hM1 hM2 => ?_⟩
      by_cases hMc : M = counter
      · exact hMc ▸ hmem
      · exact hN4 M (by omega) hM2
    · rw [if_neg hmem]
      exact ⟨counter, le_refl _, rfl, hmem, fun M hM1 hM2 => absurd hM1 (by omega)⟩

theorem generate_unique_filename_spec (fs : List FsPath)
    (destination original_name : String) :
    ∃ p, generate_unique_filename fs destination original_name = some p ∧ p ∉ fs ∧
      ((FsPath.mk destination original_name ∉ fs ∧
          p = FsPath.mk destination original_name) ∨
       (FsPath.mk destination original_name ∈ fs ∧
         ∃ N, 1 ≤ N ∧ p = numbered_candidate destination original_name N ∧
           ∀ M, 1 ≤ M → M < N →
             numbered_candidate destination original_name M ∈ fs)) := by
  unfold generate_unique_filename
  by_cases hmem : FsPath.mk destination original_name ∈ fs
  · rw [if_pos hmem]
    obtain ⟨c, h1, h2, h3⟩ := exists_free_candidate fs destination original_name
    obtain ⟨N, hN1, hN2, hN3, hN4⟩ :=
      gen_unique_loop_spec fs destination original_name (fs.length + 1) 1
        ⟨c, h1, by omega, h3⟩
    exact ⟨_, hN2, hN3, Or.inr ⟨hmem, N, hN1, rfl, hN4⟩⟩
  · rw [if_neg hmem]
    exact ⟨_, rfl, hmem, Or.inl ⟨hmem, rfl⟩⟩

/-!
Claim theorems.
-/

/-- C8: for every finite destination directory, `generate_unique_filename`
terminates and returns `destination/original_name` when that name is free,
and otherwise `destination/stem_N{suffix}` for the smallest counter
`N ≥ 1` whose name is not present in the destination. -/
theorem generate_unique_filename_terminates_first_free (fs : List FsPath)
    (destination original_name : String) :
    ∃ p, generate_unique_filename fs destination original_name = some p ∧
      ((FsPath.mk destination original_name ∉ fs ∧
          p = FsPath.mk destination original_name) ∨
       (FsPath.mk destination original_name ∈ fs ∧
         ∃ N, 1 ≤ N ∧ p = numbered_candidate destination original_name N ∧
           numbered_candidate destination original_name N ∉ fs ∧
           ∀ M, 1 ≤ M → M < N →
             numbered_candidate destination original_name M ∈ fs)) := by
  obtain ⟨p, hp, hpnot, hcase⟩ := generate_unique_filename_spec fs destination original_name
  rcases hcase with ⟨hne, hpe⟩ | ⟨hmem, N, hN1, hNe, hN4⟩
  · exact ⟨p, hp, Or.inl ⟨hne, hpe⟩⟩
  · exact ⟨p, hp, Or.inr ⟨hmem, N, hN1, hNe, hNe ▸ hpnot, hN4⟩⟩

/-- C2: moving a file into a destination directory that already contains
a file of the same name targets `stem_N{suffix}` for the first free
counter `N = 1, 2, …` and never overwrites an existing file (the chosen
destination name was not present before the move). -/
theorem move_file_collision_numbered (fs : List FsPath) (source : FsPath)
    (destination_dir : String)
    (hcol : FsPath.mk destination_dir source.name ∈ fs) :
    ∃ N, 1 ≤ N ∧
      move_file fs source destination_dir =
        numbered_candidate destination_dir source.name N :: fs.erase source ∧
      numbered_candidate destination_dir source.name N ∉ fs ∧
      ∀ M, 1 ≤ M → M < N →
        numbered_candidate destination_dir source.name M ∈ fs := by
  obtain ⟨p, hp, hpnot, hcase⟩ := generate_unique_filename_spec fs destination_dir source.name
  rcases hcase with ⟨hne, _⟩ | ⟨_, N, hN1, hNe, hN4⟩
  · exact absurd hcol hne
  · refine ⟨N, hN1, ?_, hNe ▸ hpnot, hN4⟩
    simp only [move_file, hp, hNe]

/-- Witness for C2: `a.txt` into a destination holding `a.txt` becomes
`a_1.txt`; with `a_1.txt` also present it becomes `a_2.txt`. -/
theorem move_file_collision_numbered_witness :
    move_file [FsPath.mk "d" "a.txt"] (FsPath.mk "s" "a.txt") "d"
      = [FsPath.mk "d" "a_1.txt", FsPath.mk "d" "a.txt"] ∧
    move_file [FsPath.mk "d" "a.txt", FsPath.mk "d" "a_1.txt"] (FsPath.mk "s" "a.txt") "d"
      = [FsPath.mk "d" "a_2.txt", FsPath.mk "d" "a.txt", FsPath.mk "d" "a_1.txt"] ∧
    (∃ N, 1 ≤ N ∧
      move_file [FsPath.mk "d" "a.txt"] (FsPath.mk "s" "a.txt") "d"
        = numbered_candidate "d" "a.txt" N ::
            List.erase [FsPath.mk "d" "a.txt"] (FsPath.mk "s" "a.txt") ∧
      numbered_candidate "d" "a.txt" N ∉ [FsPath.mk "d" "a.txt"] ∧
      ∀ M, 1 ≤ M → M < N →
        numbered_candidate "d" "a.txt" M ∈ [FsPath.mk "d" "a.txt"]) :=
  ⟨by decide, by decide,
    move_file_collision_numbered [FsPath.mk "d" "a.txt"] (FsPath.mk "s" "a.txt") "d"
      (by decide)⟩

/-- C3: `find_matching_type_rule` returns the first type rule in
declaration order whose extension list contains the file's lower-cased
extension — whatever later rules contain, there is no
most-specific-wins logic. -/
theorem find_matching_type_rule_first_match (file_path : FsPath)
    (type_rules : List TypeRule) (i : Nat) (tr : TypeRule)
    (hi : type_rules[i]? = some tr)
    (hmatch : get_file_extension file_path ∈ tr.extensions)
    (hearlier : ∀ j tr', j < i → type_rules[j]? = some tr' →
        get_file_extension file_path ∉ tr'.extensions) :
    find_matching_type_rule file_path type_rules = some tr := by
  induction type_rules generalizing i with
  | nil => simp at hi
  | cons hd tl ih =>
    show (hd :: tl).find?
      (fun rule => rule.extensions.contains (get_file_extension file_path)) = some tr
    cases i with
    | zero =>
      simp only [List.getElem?_cons_zero, Option.some.injEq] at hi
      subst hi
      have hc : hd.extensions.contains (get_file_extension file_path) = true :=
        List.elem_iff.mpr hmatch
      exact List.find?_cons_of_pos tl hc
    | succ j =>
      simp only [List.getElem?_cons_succ] at hi
      have hhd : get_file_extension file_path ∉ hd.extensions :=
        hearlier 0 hd (Nat.succ_pos j) (by simp)
      have hcn : ¬ hd.extensions.contains (get_file_extension file_path) = true := by
        intro hcc
        exact hhd (List.elem_iff.mp hcc)
      rw [List.find?_cons_of_neg tl hcn]
      exact ih j hi (fun j' tr' hj' hg =>
        hearlier (j' + 1) tr' (Nat.succ_lt_succ hj') (by simpa using hg))

/-- Witness for C3: with `.jpg` in both `Photos` and `Screenshots`, in
that declaration order, a `.jpg` file resolves to `Photos`. -/
theorem find_matching_type_rule_first_match_witness :
    find_matching_type_rule (FsPath.mk "w" "x.jpg")
      [TypeRule.mk "Photos" [".jpg"] "Photos",
       TypeRule.mk "Screenshots" [".jpg"] "Screenshots"]
      = some (TypeRule.mk "Photos" [".jpg"] "Photos") :=
  find_matching_type_rule_first_match (FsPath.mk "w" "x.jpg")
    [TypeRule.mk "Photos" [".jpg"] "Photos",
     TypeRule.mk "Screenshots" [".jpg"] "Screenshots"]
    0 (TypeRule.mk "Photos" [".jpg"] "Photos") (by decide) (by decide)
    (fun j tr' hj _ => absurd hj (Nat.not_lt_zero j))

/-- C9: a URL whose standard parse yields an empty network-location host
(in particular the empty URL, or a bare path with no scheme) never
matches any redirect pattern list. -/
theorem matches_redirect_domain_empty_host (url : String)
    (redirect_domains : List String)
    (h : extract_domain url = "") :
    matches_redirect_domain url redirect_domains = false := by
  unfold matches_redirect_domain
  by_cases hu : url = ""
  · rw [if_pos hu]
  · rw [if_neg hu]
    simp [h]

/-- Witness for C9: a bare relative path parses to an empty host and is
not redirected, even when a pattern occurs in its text. -/
theorem matches_redirect_domain_empty_host_witness :
    extract_domain "foo/bar.txt" = "" ∧
    matches_redirect_domain "foo/bar.txt" ["foo"] = false :=
  ⟨by decide, matches_redirect_domain_empty_host "foo/bar.txt" ["foo"] (by decide)⟩

/-- Python's substring operator holds exactly when the haystack splits
around the needle. -/
theorem list_contains_sub_iff (needle : List Char) (haystack : List Char) :
    list_contains_sub needle haystack = true ↔
      ∃ pre post, haystack = pre ++ needle ++ post := by
  induction haystack with
  | nil =>
    simp only [list_contains_sub, List.isEmpty_iff]
    constructor
    · rintro rfl
      exact ⟨[], [], rfl⟩
    · rintro ⟨pre, post, h⟩
      rcases pre with _ | ⟨p, ps⟩
      · rcases needle with _ | ⟨n, ns⟩
        · rfl
        · simp at h
      · simp at h
  | cons c rest ih =>
    simp only [list_contains_sub, Bool.or_eq_true]
    constructor
    · rintro (hpre | hrec)
      · obtain ⟨t, ht⟩ := List.isPrefixOf_iff_prefix.mp hpre
        exact ⟨[], t, by simp [← ht]⟩
      · obtain ⟨pre, post, hp⟩ := ih.mp hrec
        exact ⟨c :: pre, post, by simp [hp]⟩
    · rintro ⟨pre, post, hp⟩
      rcases pre with _ | ⟨p, ps⟩
      · left
        simp only [List.nil_append] at hp
        exact List.isPrefixOf_iff_prefix.mpr ⟨post, hp.symm⟩
      · right
        simp only [List.cons_append] at hp
        injection hp with h1 h2
        exact ih.mpr ⟨ps, post, h2⟩

/-- C5: `matches_redirect_domain` lower-cases both the pattern and the
parsed host and tests plain substring containment, so a pattern that is
an unintended proper substring of the host matches (pattern `"ok"`
matches host `"facebook.com"`), and matching is case-insensitive. -/
theorem matches_redirect_domain_substring_spec :
    (∀ (url : String) (redirect_domains : List String),
        matches_redirect_domain url redirect_domains = true ↔
          url ≠ "" ∧ extract_domain url ≠ "" ∧
            ∃ pattern ∈ redirect_domains, ∃ pre post,
              (str_lower (extract_domain url)).data =
                pre ++ (str_lower pattern).data ++ post) ∧
    matches_redirect_domain "https://facebook.com/file.jpg" ["ok"] = true ∧
    matches_redirect_domain "https://WWW.FaceBook.Com/file.jpg" ["FACEBOOK"] = true := by
  refine ⟨?_, by decide, by decide⟩
  intro url redirect_domains
  simp only [matches_redirect_domain]
  by_cases hu : url = ""
  · simp [hu]
  · rw [if_neg hu]
    by_cases hd : extract_domain url = ""
    · simp [hd]
    · rw [if_neg hd]
      simp only [List.any_eq_true, ne_eq, hu, hd, not_false_iff, true_and,
        str_contains]
      constructor
      · rintro ⟨pattern, hmem, hsub⟩
        exact ⟨pattern, hmem, (list_contains_sub_iff _ _).mp hsub⟩
      · rintro ⟨pattern, hmem, hsub⟩
        exact ⟨pattern, hmem, (list_contains_sub_iff _ _).mpr hsub⟩

/-- Witness for C5: the pattern `"ok"` matching host `"facebook.com"`,
through the theorem. -/
theorem matches_redirect_domain_substring_spec_witness :
    matches_redirect_domain "https://facebook.com/file.jpg" ["ok"] = true :=
  matches_redirect_domain_substring_spec.2.1

/-- ASCII lowering is idempotent on characters. -/
theorem char_toLower_toLower (c : Char) : c.toLower.toLower = c.toLower := by
  by_cases h : c.toNat ≥ 65 ∧ c.toNat ≤ 90
  · have h1 : c.toLower = Char.ofNat (c.toNat + 32) := by
      unfold Char.toLower; rw [if_pos h]
    have hvalid : (c.toNat + 32).isValidChar := Or.inl (by omega)
    have hv : (Char.ofNat (c.toNat + 32)).toNat = c.toNat + 32 := by
      rw [Char.ofNat, dif_pos hvalid]
      simp [Char.ofNatAux, Char.toNat, UInt32.toNat, BitVec.toNat_ofNatLt]
    rw [h1]
    unfold Char.toLower
    rw [hv, if_neg (by omega)]
  · have h1 : c.toLower = c := by
      unfold Char.toLower; rw [if_neg h]
    rw [h1, h1]

/-- ASCII lowering is idempotent on strings. -/
theorem str_lower_idem (s : String) : str_lower (str_lower s) = str_lower s := by
  unfold str_lower
  simp only [List.map_map]
  congr 1
  exact List.map_congr_left (fun c _ => char_toLower_toLower c)

/-- C10: every rule produced by `parse_watch_rules` has its enabled flag
true (configurations disabled in the document are dropped entirely) and
carries only lower-cased extensions in its type rules. -/
theorem parse_watch_rules_invariant (configs : List WatchRuleConfig)
    (rule : WatchRule) (hr : rule ∈ parse_watch_rules configs) :
    rule.enabled = true ∧
    ∀ tr ∈ rule.type_rules, ∀ e ∈ tr.extensions, str_lower e = e := by
  unfold parse_watch_rules at hr
  simp only [List.mem_map, List.mem_filter] at hr
  obtain ⟨c, ⟨hcmem, hcen⟩, rfl⟩ := hr
  constructor
  · exact hcen
  · intro tr htr e he
    simp only [List.mem_map] at htr
    obtain ⟨tc, htcmem, rfl⟩ := htr
    simp only [parse_type_rule, List.mem_map] at he
    obtain ⟨e0, he0mem, rfl⟩ := he
    exact str_lower_idem e0

/-- Witness for C10: a two-entry configuration, one rule with an
upper-case extension and one disabled rule; the surviving parsed rule is
enabled and lower-cased. -/
theorem parse_watch_rules_invariant_witness :
    (WatchRule.mk "r" "w" true ["facebook"]
        [TypeRule.mk "Photos" [".jpg"] "Photos"] "tmp" ["."]).enabled = true ∧
    ∀ tr ∈ (WatchRule.mk "r" "w" true ["facebook"]
        [TypeRule.mk "Photos" [".jpg"] "Photos"] "tmp" ["."]).type_rules,
      ∀ e ∈ tr.extensions, str_lower e = e :=
  parse_watch_rules_invariant
    [WatchRuleConfig.mk "r" "w" none (some ["facebook"])
       [TypeRuleConfig.mk "Photos" (some [".JPG"]) none] none none,
     WatchRuleConfig.mk "off" "w2" (some false) none [] none none]
    (WatchRule.mk "r" "w" true ["facebook"]
       [TypeRule.mk "Photos" [".jpg"] "Photos"] "tmp" ["."])
    (by decide)

/-- C1: a file whose provenance URL matches one of the rule's
redirect-domain substrings is moved to
`watch_directory/redirect_destination`, even when its extension also
matches some type rule: the provenance check comes first and wins. -/
theorem process_file_redirect_priority (fs : List FsPath) (file_path : FsPath)
    (snap1 snap2 : Option Nat) (xres : XattrResult) (rule : WatchRule) (url : String)
    (hhid : str_startswith file_path.name "." = false)
    (htmp : str_endswith file_path.name ".tmp" = false)
    (hdb : file_path.name ≠ "Thumbs.db")
    (hready : is_file_ready snap1 snap2 = true)
    (hurl : get_download_source xres = some url)
    (hne : url ≠ "")
    (hmatch : matches_redirect_domain url rule.redirect_domains = true)
    (_htype : find_matching_type_rule file_path rule.type_rules ≠ none) :
    process_file fs file_path false snap1 snap2 xres rule =
      move_file fs file_path
        (rule.watch_directory ++ "/" ++ rule.redirect_destination) := by
  have hds : file_path.name ≠ ".DS_Store" := by
    intro h; rw [h] at hhid; exact absurd hhid (by decide)
  have hloc : file_path.name ≠ ".localized" := by
    intro h; rw [h] at hhid; exact absurd hhid (by decide)
  simp [process_file, hhid, htmp, hready, hurl, hds, hdb, hloc, hne, hmatch]

/-- Witness for C1: a `.jpg` file from `facebook.com` whose extension
also matches the `Photos` type rule goes to the redirect destination. -/
theorem process_file_redirect_priority_witness :
    process_file [FsPath.mk "w" "pic.jpg"] (FsPath.mk "w" "pic.jpg") false
      (some 5) (some 5) (XattrResult.present ["https://facebook.com/x"])
      (WatchRule.mk "r" "w" true ["facebook"]
        [TypeRule.mk "Photos" [".jpg"] "Photos"] "tmp" ["."]) =
      move_file [FsPath.mk "w" "pic.jpg"] (FsPath.mk "w" "pic.jpg")
        ((WatchRule.mk "r" "w" true ["facebook"]
            [TypeRule.mk "Photos" [".jpg"] "Photos"] "tmp" ["."]).watch_directory
          ++ "/" ++
          (WatchRule.mk "r" "w" true ["facebook"]
            [TypeRule.mk "Photos" [".jpg"] "Photos"] "tmp" ["."]).redirect_destination) :=
  process_file_redirect_priority [FsPath.mk "w" "pic.jpg"] (FsPath.mk "w" "pic.jpg")
    (some 5) (some 5) (XattrResult.present ["https://facebook.com/x"])
    (WatchRule.mk "r" "w" true ["facebook"]
      [TypeRule.mk "Photos" [".jpg"] "Photos"] "tmp" ["."])
    "https://facebook.com/x"
    (by decide) (by decide) (by decide) (by decide) rfl (by decide) (by decide)
    (by decide)

/-- C4: a file that passes the skip and readiness checks but matches no
redirect domain and no type rule is left alone: the filesystem is
unchanged. -/
theorem process_file_no_match_leaves_fs (fs : List FsPath) (file_path : FsPath)
    (snap1 snap2 : Option Nat) (xres : XattrResult) (rule : WatchRule)
    (hhid : str_startswith file_path.name "." = false)
    (htmp : str_endswith file_path.name ".tmp" = false)
    (hdb : file_path.name ≠ "Thumbs.db")
    (hready : is_file_ready snap1 snap2 = true)
    (hnored : ∀ url, get_download_source xres = some url →
        matches_redirect_domain url rule.redirect_domains = false)
    (htype : find_matching_type_rule file_path rule.type_rules = none) :
    process_file fs file_path false snap1 snap2 xres rule = fs := by
  have hds : file_path.name ≠ ".DS_Store" := by
    intro h; rw [h] at hhid; exact absurd hhid (by decide)
  have hloc : file_path.name ≠ ".localized" := by
    intro h; rw [h] at hhid; exact absurd hhid (by decide)
  cases hx : get_download_source xres with
  | none => simp [process_file, hhid, htmp, hready, hds, hdb, hloc, hx, htype]
  | some url =>
    have hm := hnored url hx
    simp [process_file, hhid, htmp, hready, hds, hdb, hloc, hx, hm, htype]

/-- Witness for C4: a `.xyz` file from `example.com` with neither a
domain match nor a type match stays put. -/
theorem process_file_no_match_leaves_fs_witness :
    process_file [FsPath.mk "w" "doc.xyz"] (FsPath.mk "w" "doc.xyz") false
      (some 7) (some 7) (XattrResult.present ["https://example.com/x"])
      (WatchRule.mk "r" "w" true ["facebook"]
        [TypeRule.mk "Photos" [".jpg"] "Photos"] "tmp" ["."]) =
      [FsPath.mk "w" "doc.xyz"] :=
  process_file_no_match_leaves_fs [FsPath.mk "w" "doc.xyz"] (FsPath.mk "w" "doc.xyz")
    (some 7) (some 7) (XattrResult.present ["https://example.com/x"])
    (WatchRule.mk "r" "w" true ["facebook"]
      [TypeRule.mk "Photos" [".jpg"] "Photos"] "tmp" ["."])
    (by decide) (by decide) (by decide) (by decide)
    (by intro url hu; cases hu; decide) (by decide)

/-- C6: `is_file_ready` holds exactly when the path exists at both size
samples and the sizes agree; a stable zero-byte file is ready, a path
that disappears during the wait is not, and an unready file leaves the
filesystem untouched. -/
theorem is_file_ready_size_stable_spec :
    (∀ snap1 snap2 : Option Nat,
        is_file_ready snap1 snap2 = true ↔
          ∃ size1 size2, snap1 = some size1 ∧ snap2 = some size2 ∧ size1 = size2) ∧
    is_file_ready (some 0) (some 0) = true ∧
    (∀ size1 : Nat, is_file_ready (some size1) none = false) ∧
    (∀ (fs : List FsPath) (file_path : FsPath) (snap1 snap2 : Option Nat)
        (xres : XattrResult) (rule : WatchRule),
        is_file_ready snap1 snap2 = false →
        process_file fs file_path false snap1 snap2 xres rule = fs) := by
  refine ⟨?_, by decide, fun size1 => rfl, ?_⟩
  · intro snap1 snap2
    cases snap1 with
    | none => simp [is_file_ready]
    | some s1 =>
      cases snap2 with
      | none => simp [is_file_ready]
      | some s2 => simp [is_file_ready]
  · intro fs file_path snap1 snap2 xres rule hnready
    simp [process_file, hnready, ite_self]

/-- Witness for C6: a file that vanishes between the two samples is
skipped with no move. -/
theorem is_file_ready_size_stable_spec_witness :
    process_file [FsPath.mk "w" "pic.jpg"] (FsPath.mk "w" "pic.jpg") false
      (some 5) none (XattrResult.present ["https://facebook.com/x"])
      (WatchRule.mk "r" "w" true ["facebook"]
        [TypeRule.mk "Photos" [".jpg"] "Photos"] "tmp" ["."]) =
      [FsPath.mk "w" "pic.jpg"] :=
  is_file_ready_size_stable_spec.2.2.2 [FsPath.mk "w" "pic.jpg"]
    (FsPath.mk "w" "pic.jpg") (some 5) none
    (XattrResult.present ["https://facebook.com/x"])
    (WatchRule.mk "r" "w" true ["facebook"]
      [TypeRule.mk "Photos" [".jpg"] "Photos"] "tmp" ["."])
    (by decide)

/-- C7: `get_download_source` returns the first URL of a successfully
read non-empty list and `None` when the attribute is absent, the list is
empty, or the read raised; with no provenance, `process_file` falls
through to extension-based type matching. -/
theorem get_download_source_first_url_spec :
    (∀ (url : String) (rest : List String),
        get_download_source (XattrResult.present (url :: rest)) = some url) ∧
    get_download_source XattrResult.absent = none ∧
    get_download_source (XattrResult.present []) = none ∧
    get_download_source XattrResult.error = none ∧
    (∀ (fs : List FsPath) (file_path : FsPath) (snap1 snap2 : Option Nat)
        (xres : XattrResult) (rule : WatchRule),
        str_startswith file_path.name "." = false →
        str_endswith file_path.name ".tmp" = false →
        file_path.name ≠ "Thumbs.db" →
        is_file_ready snap1 snap2 = true →
        get_download_source xres = none →
        process_file fs file_path false snap1 snap2 xres rule =
          match find_matching_type_rule file_path rule.type_rules with
          | some type_rule =>
            move_file fs file_path
              (rule.watch_directory ++ "/" ++ type_rule.destination)
          | none => fs) := by
  refine ⟨fun url rest => rfl, rfl, rfl, rfl, ?_⟩
  intro fs file_path snap1 snap2 xres rule hhid htmp hdb hready hnone
  have hds : file_path.name ≠ ".DS_Store" := by
    intro h; rw [h] at hhid; exact absurd hhid (by decide)
  have hloc : file_path.name ≠ ".localized" := by
    intro h; rw [h] at hhid; exact absurd hhid (by decide)
  simp [process_file, hhid, htmp, hready, hds, hdb, hloc, hnone]

/-- Witness for C7: a failed attribute read on a `.jpg` file falls
through to the `Photos` type rule. -/
theorem get_download_source_first_url_spec_witness :
    process_file [FsPath.mk "w" "pic.jpg"] (FsPath.mk "w" "pic.jpg") false
      (some 5) (some 5) XattrResult.error
      (WatchRule.mk "r" "w" true ["facebook"]
        [TypeRule.mk "Photos" [".jpg"] "Photos"] "tmp" ["."]) =
      match find_matching_type_rule (FsPath.mk "w" "pic.jpg")
          (WatchRule.mk "r" "w" true ["facebook"]
            [TypeRule.mk "Photos" [".jpg"] "Photos"] "tmp" ["."]).type_rules with
      | some type_rule =>
        move_file [FsPath.mk "w" "pic.jpg"] (FsPath.mk "w" "pic.jpg")
          ((WatchRule.mk "r" "w" true ["facebook"]
              [TypeRule.mk "Photos" [".jpg"] "Photos"] "tmp" ["."]).watch_directory
            ++ "/" ++ type_rule.destination)
      | none => [FsPath.mk "w" "pic.jpg"] :=
  get_download_source_first_url_spec.2.2.2.2 [FsPath.mk "w" "pic.jpg"]
    (FsPath.mk "w" "pic.jpg") (some 5) (some 5) XattrResult.error
    (WatchRule.mk "r" "w" true ["facebook"]
      [TypeRule.mk "Photos" [".jpg"] "Photos"] "tmp" ["."])
    (by decide) (by decide) (by decide) (by decide) rfl
